import Mathlib

/-!
Verification development for the duplicate-detection core of the
`ai-file-cleanup` service (`services/api/app`).

The Python sources are shallowly embedded as Lean definitions:

* `select_keep_file` — `app/services/tie_breaker.py`
* `find_duplicate_groups` — `_find_duplicate_groups` in `app/api/dedupe.py`
* `get_or_generate_text_embeddings` — `app/services/embedding_cache.py`
* `search_similar_texts` — `app/services/vector_search.py`
* `process_session` — `BackgroundWorker.process_session` in
  `app/services/background_worker.py` together with
  `SessionManager.update_session_progress` in `app/services/session_manager.py`

File records are loosely-typed Python dicts; they are embedded as a structure
whose fields are the dict keys the core reads.  A missing or falsy string
value is modelled as `""`, a missing numeric value as `0` or `none`, matching
the `dict.get(k, default)` / `x or y` idioms of the source.  Python float
timestamps are modelled as exact rationals; `int((i / total) * 100)` is
modelled as exact floor division.
-/

set_option maxRecDepth 8000

/-- A normalized file record: the dict produced per file by
`_process_real_file` / `process_single_file`.  Field names are the dict keys
read by the core. -/
structure FileRec where
  id : String := ""
  fileName : String := ""
  name : String := ""
  sizeBytes : Nat := 0
  size : Nat := 0
  mimeType : String := ""
  type : String := ""
  sha256 : String := ""
  file_hash : String := ""
  text_content : String := ""
  base64_image : String := ""
  success : Bool := false
  error : Option String := none
  metadata_original_size : Option (Nat × Nat) := none
  resolution : Option (Nat × Nat) := none
  modifiedTime : Option ℚ := none
  mtime : Option ℚ := none
deriving DecidableEq, Inhabited

/-! ## Tie-breaker (`app/services/tie_breaker.py`) -/

/-- `bool(file.get('sha256') or file.get('file_hash'))` — rule 1 of `sort_key`. -/
def hash_priority (f : FileRec) : Nat :=
  if f.sha256 ≠ "" ∨ f.file_hash ≠ "" then 0 else 1

/-- Rule 2 of `sort_key`: `metadata['original_size']` takes precedence over the
`resolution` key; width × height, else 0. -/
def resolution_val (f : FileRec) : Nat :=
  match f.metadata_original_size with
  | some (w, h) => w * h
  | none =>
    match f.resolution with
    | some (w, h) => w * h
    | none => 0

/-- Rule 3 of `sort_key`: `modifiedTime` takes precedence over `mtime`;
missing values are 0. -/
def modified_time_val (f : FileRec) : ℚ :=
  match f.modifiedTime with
  | some v => v
  | none =>
    match f.mtime with
    | some v => v
    | none => 0

/-- Rule 4 of `sort_key`: `file.get('sizeBytes') or file.get('size', 0)`. -/
def size_bytes_val (f : FileRec) : Nat :=
  if f.sizeBytes ≠ 0 then f.sizeBytes else f.size

/-- Rule 5 of `sort_key`: `file.get('fileName') or file.get('name', '')`. -/
def filename_val (f : FileRec) : String :=
  if f.fileName ≠ "" then f.fileName else f.name

/-- The type of the Python `sort_key` tuple
`(hash_priority, -resolution, -modified_time, -size_bytes, filename)`
under lexicographic tuple comparison.  Strings are compared as their
code-point sequences, as Python does. -/
abbrev SKey := Lex (Nat × Lex (Int × Lex (ℚ × Lex (Int × List Char))))

/-- The `sort_key` function of `select_keep_file`. -/
def sortKey (f : FileRec) : SKey :=
  toLex (hash_priority f,
    toLex (-(resolution_val f : Int),
      toLex (-(modified_time_val f),
        toLex (-(size_bytes_val f : Int), (filename_val f).data))))

/-- `sorted(files, key=sort_key)[0]` for the nonempty list `f :: fs`: the sort
is stable, so its first element is the first element of the input attaining
the minimal key, which is what this fold computes. -/
def minByKey (f : FileRec) (fs : List FileRec) : FileRec :=
  fs.foldl (fun best g => if sortKey g < sortKey best then g else best) f

/-- `select_keep_file` (`tie_breaker.py`): raises `ValueError` on an empty
list (modelled as `Except.error` with the message), returns the sole element
of a singleton, else the first element of the stable sort by `sort_key`. -/
def select_keep_file : List FileRec → Except String FileRec
  | [] => .error "Cannot select keep file from empty list"
  | [f] => .ok f
  | f :: fs => .ok (minByKey f fs)

/-! ## Duplicate grouper (`_find_duplicate_groups` in `app/api/dedupe.py`) -/

/-- `file.get('sha256') or file.get('file_hash', '')`. -/
def effHash (f : FileRec) : String :=
  if f.sha256 ≠ "" then f.sha256 else f.file_hash

/-- A duplicate entry of a group: `{'file': ..., 'similarity': ...,
'reason': ..., 'isKept': False}`. -/
structure DupEntry where
  file : FileRec
  similarity : ℚ
  reason : String
  isKept : Bool
deriving DecidableEq

/-- A duplicate group as built by `_find_duplicate_groups`. -/
structure DuplicateGroup where
  id : String
  groupIndex : Nat
  keepFile : FileRec
  duplicates : List DupEntry
  reason : String
  totalSizeSaved : Nat
deriving DecidableEq

/-- Python-dict key order: later insertions of an existing key keep its
position; a new key is appended.  Used to model `hash_groups` /
`text_content_groups`, whose iteration order is key insertion order. -/
def insertKey (ks : List String) (h : String) : List String :=
  if h ∈ ks then ks else ks ++ [h]

/-- The keys of the `hash_groups` dict, in insertion (= first-occurrence)
order; files with a falsy hash are not inserted. -/
def hashKeys (l : List FileRec) : List String :=
  l.foldl (fun ks f => let h := effHash f; if h = "" then ks else insertKey ks h) []

/-- The keys of the `text_content_groups` dict, in first-occurrence order;
files with falsy `text_content` are not inserted. -/
def textKeys (l : List FileRec) : List String :=
  l.foldl (fun ks f => let t := f.text_content; if t = "" then ks else insertKey ks t) []

/-- `select_keep_file` as called on the (always nonempty, length ≥ 2) member
lists inside `_find_duplicate_groups`; the `[]` case is unreachable there. -/
def selectKeepTotal (l : List FileRec) : FileRec :=
  match l with
  | [] => default
  | f :: fs => minByKey f fs

/-- `d['file'].get('size', 0) or d['file'].get('sizeBytes', 0)` in the
`totalSizeSaved` sum. -/
def savedSize (f : FileRec) : Nat :=
  if f.size ≠ 0 then f.size else f.sizeBytes

/-- One group emitted by `_find_duplicate_groups` from a member list with
≥ 2 elements: pick the keep file with the tie-breaker; every member whose
`id` differs from the keep file's `id` AND whose `fileName` differs from the
keep file's `fileName` becomes a duplicate entry with similarity 1.0. -/
def mkGroup (idx : Nat) (reason : String) (g : List FileRec) : DuplicateGroup :=
  let kept := selectKeepTotal g
  let dups := (g.filter
      (fun d => decide (d.id ≠ kept.id) && decide (d.fileName ≠ kept.fileName))).map
    (fun d => ⟨d, 1, reason, false⟩)
  ⟨"group_" ++ toString idx, idx, kept, dups, reason,
    (dups.map (fun d => savedSize d.file)).sum⟩

/-- `_find_duplicate_groups(files, text_embeddings, image_embeddings)`:
stage 1 groups the successful files by `sha256` (exact-hash groups); stage 2
groups the successful files carrying text by exact `text_content` equality
(run only when there are ≥ 2 such files).  The two embedding arguments are
accepted but never read by the source.  `group_index` continues across the
two stages. -/
def find_duplicate_groups (files : List FileRec)
    (text_embeddings image_embeddings : List (List ℚ)) : List DuplicateGroup :=
  let processed_files := files.filter (fun f => f.success)
  let hashLists := (hashKeys processed_files).map
    (fun h => processed_files.filter (fun f => decide (effHash f = h)))
  let bigHash := hashLists.filter (fun g => decide (1 < g.length))
  let hashGroups := bigHash.enum.map (fun p => mkGroup p.1 "Exact hash match" p.2)
  let text_files := processed_files.filter
    (fun f => decide (f.text_content ≠ "") && f.success)
  let textGroups :=
    if 1 < text_files.length then
      let textLists := (textKeys text_files).map
        (fun t => text_files.filter (fun f => decide (f.text_content = t)))
      let bigText := textLists.filter (fun g => decide (1 < g.length))
      bigText.enum.map
        (fun p => mkGroup (hashGroups.length + p.1) "Exact text content match" p.2)
    else []
  hashGroups ++ textGroups

/-- A file is a member of a group when it is the keep file or one of the
duplicate entries. -/
def memberB (f : FileRec) (g : DuplicateGroup) : Bool :=
  decide (g.keepFile = f) || g.duplicates.any (fun d => decide (d.file = f))

/-! ## Embedding cache (`app/services/embedding_cache.py`) -/

/-- A `DecidableEq` instance for `Except`, needed to compare modelled
fallible results. -/
instance exceptDecEq {α β : Type} [DecidableEq α] [DecidableEq β] :
    DecidableEq (Except α β)
  | .ok a, .ok b =>
    if h : a = b then .isTrue (by rw [h]) else .isFalse (by intro hh; cases hh; exact h rfl)
  | .ok _, .error _ => .isFalse (by intro hh; cases hh)
  | .error _, .ok _ => .isFalse (by intro hh; cases hh)
  | .error a, .error b =>
    if h : a = b then .isTrue (by rw [h]) else .isFalse (by intro hh; cases hh; exact h rfl)

/-- The in-memory embedding cache `_embedding_cache['text']`: a dict from
SHA-256 hash to embedding vector, modelled as an association list in key
insertion order. -/
abbrev EmbCache := List (String × List ℚ)

/-- Dict lookup. -/
def cacheLookup (c : EmbCache) (h : String) : Option (List ℚ) :=
  match c.find? (fun p => decide (p.1 = h)) with
  | some p => some p.2
  | none => none

/-- Dict assignment `cache[h] = v`: replace in place, or append a new key. -/
def cacheInsert (c : EmbCache) (h : String) (v : List ℚ) : EmbCache :=
  if c.any (fun p => decide (p.1 = h)) then
    c.map (fun p => if p.1 = h then (h, v) else p)
  else c ++ [(h, v)]

/-- `_get_cached_text_embedding` followed by the truthiness test
`if cached_embedding:` in the lookup loop: a `None` result and an empty
vector both count as a miss.  (The database branch of the lookup is an
external collaborator and is modelled as unavailable, which the source
tolerates by falling back to the in-memory dict.) -/
def cacheHitVal (c : EmbCache) (h : String) : Option (List ℚ) :=
  match cacheLookup c h with
  | some v => if v = [] then none else some v
  | none => none

/-- Fill the `None` placeholders of the lookup pass with the generated
vectors, in order.  This is the `zip(new_embeddings, ...)` merge of the
source: successive misses consume successive generated vectors; if the
generator returned too few vectors the remaining placeholders stay `None`
(the zip truncates). -/
def fillMisses : List (Option (List ℚ)) → List (List ℚ) → List (Option (List ℚ))
  | [], _ => []
  | some v :: rest, news => some v :: fillMisses rest news
  | none :: rest, [] => none :: fillMisses rest []
  | none :: rest, n :: ns => some n :: fillMisses rest ns

/-- The `_cache_text_embedding` tasks created after generation: store each
`(hash, vector)` pair in creation order (last write wins for duplicate
hashes). -/
def updateCache (c : EmbCache) (news : List (List ℚ)) (hs : List String) : EmbCache :=
  (news.zip hs).foldl (fun acc p => cacheInsert acc p.2 p.1) c

/-- The result of one `get_or_generate_text_embeddings` call.  `genCalls`
records the argument of each `ml_client.generate_text_embeddings`
invocation. -/
structure CacheResult where
  embeddings : List (Option (List ℚ))
  cacheHits : List Bool
  genCalls : List (List String)
  cache' : EmbCache
deriving DecidableEq

/-- `EmbeddingCacheService.get_or_generate_text_embeddings(texts, hashes)`.
Raises (`Except.error`) when the two lists differ in length.  The lookup
loop classifies every position against the starting cache (new vectors are
stored only after generation, so a duplicate hash inside one batch still
misses); the generator is called once with the missed texts in their
relative order, and its vectors are merged back into the original
positions. -/
def get_or_generate_text_embeddings (cache : EmbCache)
    (gen : List String → List (List ℚ))
    (texts : List String) (sha256_hashes : List String) :
    Except String CacheResult :=
  if texts.length ≠ sha256_hashes.length then
    .error "texts and sha256_hashes must have the same length"
  else
    let pairs := texts.zip sha256_hashes
    let scan := pairs.map (fun p => cacheHitVal cache p.2)
    let cache_hits := scan.map Option.isSome
    let missPairs := pairs.filter (fun p => (cacheHitVal cache p.2).isNone)
    let texts_to_generate := missPairs.map Prod.fst
    let genCalls := if texts_to_generate.isEmpty then [] else [texts_to_generate]
    let new_embeddings := gen texts_to_generate
    let embeddings := fillMisses scan new_embeddings
    .ok ⟨embeddings, cache_hits, genCalls,
      updateCache cache new_embeddings (missPairs.map Prod.snd)⟩

/-! ## Vector similarity search (`app/services/vector_search.py`) -/

/-- A row of the `file_embeddings ⋈ files` join read by the raw SQL query. -/
structure VRow where
  fileId : String
  fileName : String
  sizeBytes : Nat
  sha256 : String
  kind : String
  embedding : List ℚ
deriving DecidableEq

/-- The result dict of `search_similar_texts`. -/
structure SearchResult where
  results : List VRow
  count : Nat
  limit : Nat
  offset : Nat
  has_more : Bool
deriving DecidableEq

/-- The raw SQL query of `search_similar_texts`: keep the text rows whose
similarity `1 - (embedding <-> query)` exceeds the threshold (excluding
`exclude_file_id` when given), order by ascending distance, then apply
`LIMIT .. OFFSET ..`.  The pgvector distance operator `<->` is an external
oracle, passed in as `dist`. -/
def sqlSimilarTexts (dist : List ℚ → List ℚ → ℚ) (table : List VRow)
    (embedding : List ℚ) (distance_threshold : ℚ) (lim off : Nat)
    (exclude_file_id : Option String) : List VRow :=
  let matching := table.filter (fun r =>
    decide (r.kind = "text") &&
    decide (distance_threshold < 1 - dist r.embedding embedding) &&
    (match exclude_file_id with
     | some x => decide (r.fileId ≠ x)
     | none => true))
  let ordered := matching.mergeSort
    (fun a b => decide (dist a.embedding embedding ≤ dist b.embedding embedding))
  (ordered.drop off).take lim

/-- `VectorSearchService.search_similar_texts`: the requested `limit` is
clamped to `self.vector_search_limit` before it reaches the SQL `LIMIT`
clause; `has_more = len(results) >= limit`. -/
def search_similar_texts (vector_search_limit : Nat)
    (dist : List ℚ → List ℚ → ℚ) (table : List VRow) (embedding : List ℚ)
    (distance_threshold : ℚ) (limit offset : Nat)
    (exclude_file_id : Option String) : SearchResult :=
  let lim := min limit vector_search_limit
  let results := sqlSimilarTexts dist table embedding distance_threshold lim
    offset exclude_file_id
  ⟨results, results.length, lim, offset, decide (results.length ≥ lim)⟩

/-! ## Session manager and background worker
(`app/services/session_manager.py`, `app/services/background_worker.py`) -/

/-- The `processing_stats` dict computed at the end of `process_session`. -/
structure ProcStats where
  total_files : Nat
  successful_files : Nat
  failed_files : Nat
  text_files : Nat
  image_files : Nat
  duplicate_groups : Nat
  total_duplicates : Nat
deriving DecidableEq

/-- The mutable fields of an `UploadSession` that `process_session` touches. -/
structure SessState where
  status : String := "uploading"
  progress : Nat := 0
  total_files : Nat := 0
  processed_files : Nat := 0
  failed_files : Nat := 0
  duplicate_groups : List DuplicateGroup := []
  processing_stats : Option ProcStats := none
  error_message : Option String := none
deriving DecidableEq, Inhabited

/-- One uploaded file as seen by the worker: its directory name, its
`stat().st_size`, and the outcome of `process_single_file` on it — either
the normalized record or the exception text. -/
structure WFile where
  name : String
  statSize : Nat
  outcome : Except String FileRec
deriving DecidableEq

/-- `get_uploaded_files`: the regular files of the session directory other
than `results.json`. -/
def uploadedOf (entries : List WFile) : List WFile :=
  entries.filter (fun w => decide (w.name ≠ "results.json"))

/-- The failed-file record appended by the `except` branch of the per-file
loop of `process_session`. -/
def failedRec (i : Nat) (w : WFile) (e : String) : FileRec :=
  { id := "file_" ++ toString i,
    fileName := w.name,
    name := w.name,
    sizeBytes := w.statSize,
    size := w.statSize,
    mimeType := "application/octet-stream",
    type := "application/octet-stream",
    success := false,
    error := some e }

/-- What the per-file loop appends to `processed_files` for file `i`. -/
def fileResult (i : Nat) (w : WFile) : FileRec :=
  match w.outcome with
  | .ok r => r
  | .error e => failedRec i w e

/-- Whether the per-file loop counts file `w` as failed. -/
def isFailed (w : WFile) : Bool :=
  match w.outcome with
  | .ok _ => false
  | .error _ => true

/-- The state written by the per-file `update_session_progress` call:
`progress = int((i / total) * 100)` (exact floor), `processed_files = i`. -/
def perFileState (base : SessState) (n i : Nat) : SessState :=
  { base with progress := i * 100 / n, processed_files := i }

/-- Accumulator of the per-file loop: current session state, the states
persisted so far (one per `update_session_progress` call), the
`processed_files` result list, and `failed_count`. -/
structure LoopAcc where
  cur : SessState
  trace : List SessState
  results : List FileRec
  failed : Nat

/-- One iteration of the per-file loop of `process_session` on the
enumerated file `(i, w)`: persist the progress update, then either append
the processed record or append a failed record and bump `failed_count`. -/
def stepFile (n : Nat) (acc : LoopAcc) (p : Nat × WFile) : LoopAcc :=
  let s := perFileState acc.cur n p.1
  match p.2.outcome with
  | .ok r => ⟨s, acc.trace ++ [s], acc.results ++ [r], acc.failed⟩
  | .error e => ⟨s, acc.trace ++ [s], acc.results ++ [failedRec p.1 p.2 e], acc.failed + 1⟩

/-- Everything observable about one `process_session` run: the final session
state, the sequence of persisted states (one per `update_session_progress`
call, in order), and the `processed_files` list handed to the grouper. -/
structure RunResult where
  final : SessState
  trace : List SessState
  results : List FileRec
deriving DecidableEq

/-- `BackgroundWorker.process_session` for an existing session `s0` whose
directory holds `entries`:
1. persist `status="processing", progress=0`;
2. list the uploaded files and set `total_files` (a direct attribute set, not
   itself persisted);
3. with no files, persist `status="failed"` with
   `error_message="No files found to process"` and return;
4. otherwise run the per-file loop (each iteration persists a progress
   update and appends a processed or failed record — a per-file exception
   never leaves the loop), call `_find_duplicate_groups` on the results with
   empty embedding lists, and persist the completed state with
   `progress=100`, the groups and the stats. -/
def process_session (s0 : SessState) (entries : List WFile) : RunResult :=
  let s1 := { s0 with status := "processing", progress := 0 }
  let uploaded := uploadedOf entries
  let n := uploaded.length
  let s2 := { s1 with total_files := n }
  if n = 0 then
    let sf := { s2 with
      status := "failed"
      error_message := some "No files found to process" }
    ⟨sf, [s1, sf], []⟩
  else
    let loop := uploaded.enum.foldl (stepFile n) ⟨s2, [], [], 0⟩
    let groups := find_duplicate_groups loop.results [] []
    let successful := loop.results.length - loop.failed
    let stats : ProcStats :=
      ⟨n, successful, loop.failed,
        (loop.results.filter (fun f => decide (f.text_content ≠ ""))).length,
        (loop.results.filter (fun f => decide (f.base64_image ≠ ""))).length,
        groups.length,
        (groups.map (fun g => g.duplicates.length)).sum⟩
    let sc := { loop.cur with
      status := "completed"
      progress := 100
      processed_files := successful
      failed_files := loop.failed
      duplicate_groups := groups
      processing_stats := some stats }
    ⟨sc, s1 :: loop.trace ++ [sc], loop.results⟩

/-! ## Cosine similarity (spec-modelled) -/

/-- Dot product of two embedding vectors. -/
def dotList (a b : List ℚ) : ℚ :=
  ((a.zip b).map (fun p => p.1 * p.2)).sum

/-- Modelled from the spec: `cosineSimilarity(e1, e2)` of the spec's
embedding-similarity grouping stage (§4.3 stage 3).  The source under
`src/` has no similarity stage and never computes this quantity; the
definition follows the spec's words and exists only to state that claim. -/
noncomputable def cosineSimilarity (a b : List ℚ) : ℝ :=
  ((dotList a b : ℚ) : ℝ) /
    (Real.sqrt ((dotList a a : ℚ) : ℝ) * Real.sqrt ((dotList b b : ℚ) : ℝ))

/-! ## Concrete inputs used by counterexamples and witnesses -/

/-- Two successful records sharing both `sha256` and `text_content` but with
distinct ids and names: the exact-hash stage and the exact-text stage each
emit a group containing both. -/
def c1A : FileRec :=
  { id := "file_0", fileName := "a.txt", name := "a.txt", sizeBytes := 10,
    size := 10, sha256 := "h", file_hash := "h", text_content := "T",
    success := true }

/-- See `c1A`. -/
def c1B : FileRec :=
  { id := "file_1", fileName := "b.txt", name := "b.txt", sizeBytes := 10,
    size := 10, sha256 := "h", file_hash := "h", text_content := "T",
    success := true }

/-- Two successful records with distinct hashes, no text, and identical
embedding vectors: the spec's similarity stage would group them, the source
returns no group at all. -/
def c2C : FileRec :=
  { id := "file_0", fileName := "c.bin", name := "c.bin", sizeBytes := 10,
    size := 10, sha256 := "h1", file_hash := "h1", success := true }

/-- See `c2C`. -/
def c2D : FileRec :=
  { id := "file_1", fileName := "d.bin", name := "d.bin", sizeBytes := 10,
    size := 10, sha256 := "h2", file_hash := "h2", success := true }

/-- Two successful records with the same non-empty hash but the SAME
`fileName`: the non-kept one is dropped from the group's duplicates by the
`fileName !=` filter. -/
def c4A : FileRec :=
  { id := "file_0", fileName := "a.txt", name := "a.txt", sizeBytes := 10,
    size := 10, sha256 := "h", file_hash := "h", success := true }

/-- See `c4A`. -/
def c4B : FileRec :=
  { id := "file_1", fileName := "a.txt", name := "a.txt", sizeBytes := 5,
    size := 5, sha256 := "h", file_hash := "h", success := true }

/-- Two distinct records (different ids and hashes) with identical sort
keys: the name tie-break is not decisive between them, so the tie-breaker's
answer depends on the input order. -/
def c5A : FileRec :=
  { id := "file_0", fileName := "a.txt", name := "a.txt", sizeBytes := 10,
    size := 10, sha256 := "h1", file_hash := "h1", success := true }

/-- See `c5A`. -/
def c5B : FileRec :=
  { id := "file_1", fileName := "a.txt", name := "a.txt", sizeBytes := 10,
    size := 10, sha256 := "h2", file_hash := "h2", success := true }

/-- A successful record used by worker witnesses. -/
def w1Rec : FileRec :=
  { id := "file_b.txt", fileName := "b.txt", name := "b.txt", sizeBytes := 4,
    size := 4, sha256 := "hb", file_hash := "hb", success := true }

/-- An uploaded file whose per-file processing raises. -/
def wFail : WFile := ⟨"a.txt", 3, .error "boom"⟩

/-- A session directory with one failing and one succeeding file. -/
def w1Entries : List WFile :=
  [wFail, ⟨"b.txt", 4, .ok w1Rec⟩]

/-- Scenario B of the spec: five texts over hashes `[h1,h1,h2,h3,h3]`. -/
def c3texts : List String := ["t0", "t1", "t2", "t3", "t4"]

/-- See `c3texts`. -/
def c3hashes : List String := ["h1", "h1", "h2", "h3", "h3"]

/-- A well-behaved embedding generator: one vector per input text. -/
def c3gen : List String → List (List ℚ) :=
  fun l => l.map (fun _ => [(1 : ℚ)])

/-- A session directory holding only the persisted `results.json`, i.e. zero
uploaded files. -/
def w0Entries : List WFile :=
  [⟨"results.json", 7, .ok w1Rec⟩]

/-! ## Helper lemmas: tie-breaker -/

theorem minByKey_cons (f g : FileRec) (gs : List FileRec) :
    minByKey f (g :: gs) = minByKey (if sortKey g < sortKey f then g else f) gs := rfl

theorem minByKey_mem : ∀ (fs : List FileRec) (f : FileRec), minByKey f fs ∈ f :: fs
  | [], f => by simp [minByKey]
  | g :: gs, f => by
    rw [minByKey_cons]
    rcases List.mem_cons.mp (minByKey_mem gs (if sortKey g < sortKey f then g else f)) with h | h
    · rw [h]
      split <;> simp
    · simp [List.mem_cons, h]

theorem minByKey_le : ∀ (fs : List FileRec) (f : FileRec),
    ∀ x ∈ f :: fs, sortKey (minByKey f fs) ≤ sortKey x
  | [], f => by
    intro x hx
    rcases List.mem_cons.mp hx with h | h
    · rw [h]; exact le_refl _
    · cases h
  | g :: gs, f => by
    intro x hx
    rw [minByKey_cons]
    have hstep_f : sortKey (if sortKey g < sortKey f then g else f) ≤ sortKey f := by
      split
      · exact le_of_lt (by assumption)
      · exact le_refl _
    have hstep_g : sortKey (if sortKey g < sortKey f then g else f) ≤ sortKey g := by
      split
      · exact le_refl _
      · exact le_of_not_lt (by assumption)
    have ihead := minByKey_le gs (if sortKey g < sortKey f then g else f) _
      (List.mem_cons_self _ _)
    rcases List.mem_cons.mp hx with h | h
    · rw [h]; exact le_trans ihead hstep_f
    rcases List.mem_cons.mp h with h' | h'
    · rw [h']; exact le_trans ihead hstep_g
    · exact minByKey_le gs _ x (List.mem_cons_of_mem _ h')

theorem string_data_inj {s t : String} (h : s.data = t.data) : s = t := by
  cases s; cases t; exact congrArg String.mk h

theorem sortKey_eq_imp_filename {f g : FileRec} (h : sortKey f = sortKey g) :
    filename_val f = filename_val g := by
  unfold sortKey at h
  rw [toLex_inj] at h
  have h2 := congrArg Prod.snd h
  rw [toLex_inj] at h2
  have h3 := congrArg Prod.snd h2
  rw [toLex_inj] at h3
  have h4 := congrArg Prod.snd h3
  rw [toLex_inj] at h4
  exact string_data_inj (congrArg Prod.snd h4)

theorem select_keep_file_cons (f : FileRec) (fs : List FileRec) :
    select_keep_file (f :: fs) = .ok (minByKey f fs) := by
  cases fs <;> rfl

theorem selectKeepTotal_cons (f : FileRec) (fs : List FileRec) :
    selectKeepTotal (f :: fs) = minByKey f fs := rfl

theorem selectKeepTotal_mem {l : List FileRec} (h : l ≠ []) : selectKeepTotal l ∈ l := by
  cases l with
  | nil => exact absurd rfl h
  | cons f fs => exact minByKey_mem fs f

theorem selectKeepTotal_le {l : List FileRec} (h : l ≠ []) :
    ∀ x ∈ l, sortKey (selectKeepTotal l) ≤ sortKey x := by
  cases l with
  | nil => exact absurd rfl h
  | cons f fs => exact minByKey_le fs f

/-! ## Helper lemmas: lists -/

theorem two_mem_one_lt_length {α : Type} {a b : α} {l : List α}
    (ha : a ∈ l) (hb : b ∈ l) (hne : a ≠ b) : 1 < l.length := by
  cases l with
  | nil => cases ha
  | cons x xs =>
    cases xs with
    | nil =>
      simp only [List.mem_singleton] at ha hb
      exact absurd (ha.trans hb.symm) hne
    | cons y ys => simp only [List.length_cons]; omega

theorem enum_mem_of_mem {α : Type} {a : α} {l : List α} (h : a ∈ l) :
    ∃ i, (i, a) ∈ l.enum := by
  rcases List.mem_iff_getElem.mp h with ⟨n, hlt, hn⟩
  refine ⟨n, ?_⟩
  have hlt' : n < l.enum.length := by simpa [List.enum_length]
  have he : l.enum[n] = (n, a) := by
    rw [List.getElem_enum, hn]
  rw [← he]
  exact List.getElem_mem hlt'

/-! ## Helper lemmas: grouper -/

theorem mkGroup_keepFile (idx : Nat) (reason : String) (g : List FileRec) :
    (mkGroup idx reason g).keepFile = selectKeepTotal g := rfl

theorem mkGroup_reason (idx : Nat) (reason : String) (g : List FileRec) :
    (mkGroup idx reason g).reason = reason := rfl

theorem mkGroup_similarity (idx : Nat) (reason : String) (g : List FileRec) :
    ∀ d ∈ (mkGroup idx reason g).duplicates, d.similarity = 1 := by
  intro d hd
  simp only [mkGroup, List.mem_map] at hd
  rcases hd with ⟨x, _, rfl⟩
  rfl

theorem memberB_mkGroup {f : FileRec} {g : List FileRec} (idx : Nat) (reason : String)
    (hf : f ∈ g)
    (hcase : f = selectKeepTotal g ∨
      (f.id ≠ (selectKeepTotal g).id ∧ f.fileName ≠ (selectKeepTotal g).fileName)) :
    memberB f (mkGroup idx reason g) = true := by
  unfold memberB
  rcases hcase with h | ⟨h1, h2⟩
  · simp [mkGroup, h.symm]
  · simp only [mkGroup, Bool.or_eq_true, List.any_eq_true]
    right
    refine ⟨⟨f, 1, reason, false⟩, ?_, by simp⟩
    simp only [List.mem_map]
    exact ⟨f, List.mem_filter.mpr ⟨hf, by simp [h1, h2]⟩, rfl⟩

theorem mem_foldl_insertKey (key : FileRec → String) :
    ∀ (l : List FileRec) (ks : List String) (x : String), x ∈ ks →
      x ∈ l.foldl (fun ks f => let h := key f; if h = "" then ks else insertKey ks h) ks
  | [], ks, x, hx => by simpa using hx
  | g :: gs, ks, x, hx => by
    simp only [List.foldl_cons]
    apply mem_foldl_insertKey key gs
    show x ∈ (if key g = "" then ks else insertKey ks (key g))
    by_cases h : key g = ""
    · rw [if_pos h]; exact hx
    · rw [if_neg h]
      unfold insertKey
      by_cases hmem : key g ∈ ks
      · rw [if_pos hmem]; exact hx
      · rw [if_neg hmem]; exact List.mem_append_left _ hx

theorem key_mem_foldl (key : FileRec → String) :
    ∀ (l : List FileRec) (ks : List String) (f : FileRec), f ∈ l → key f ≠ "" →
      key f ∈ l.foldl (fun ks f => let h := key f; if h = "" then ks else insertKey ks h) ks
  | [], _, _, hf, _ => absurd hf (List.not_mem_nil _)
  | g :: gs, ks, f, hf, hne => by
    simp only [List.foldl_cons]
    rcases List.mem_cons.mp hf with h | h
    · subst h
      apply mem_foldl_insertKey
      show key f ∈ (if key f = "" then ks else insertKey ks (key f))
      rw [if_neg hne]
      unfold insertKey
      by_cases hmem : key f ∈ ks
      · rw [if_pos hmem]; exact hmem
      · rw [if_neg hmem]; exact List.mem_append_right _ (List.mem_singleton_self _)
    · exact key_mem_foldl key gs _ f h hne

theorem effHash_mem_hashKeys {f : FileRec} {l : List FileRec}
    (hf : f ∈ l) (hne : effHash f ≠ "") : effHash f ∈ hashKeys l :=
  key_mem_foldl effHash l [] f hf hne

theorem hash_group_mem_output (files : List FileRec) (tE iE : List (List ℚ))
    {gh : List FileRec}
    (hgh : gh ∈ (hashKeys (files.filter (fun f => f.success))).map
      (fun h => (files.filter (fun f => f.success)).filter
        (fun f => decide (effHash f = h))))
    (hlen : 1 < gh.length) :
    ∃ i, mkGroup i "Exact hash match" gh ∈ find_duplicate_groups files tE iE := by
  have hbig : gh ∈ ((hashKeys (files.filter (fun f => f.success))).map
      (fun h => (files.filter (fun f => f.success)).filter
        (fun f => decide (effHash f = h)))).filter (fun g => decide (1 < g.length)) :=
    List.mem_filter.mpr ⟨hgh, by simpa⟩
  rcases enum_mem_of_mem hbig with ⟨i, hi⟩
  refine ⟨i, ?_⟩
  simp only [find_duplicate_groups]
  apply List.mem_append_left
  exact List.mem_map.mpr ⟨(i, gh), hi, rfl⟩

/-! ## Helper lemmas: worker loop -/

theorem perFileState_comp (b : SessState) (n i j : Nat) :
    perFileState (perFileState b n i) n j = perFileState b n j := rfl

theorem stepFile_cur (n : Nat) (acc : LoopAcc) (p : Nat × WFile) :
    (stepFile n acc p).cur = perFileState acc.cur n p.1 := by
  unfold stepFile
  cases p.2.outcome <;> rfl

theorem stepFile_results (n : Nat) (acc : LoopAcc) (p : Nat × WFile) :
    (stepFile n acc p).results = acc.results ++ [fileResult p.1 p.2] := by
  unfold stepFile fileResult
  cases p.2.outcome <;> rfl

theorem stepFile_trace (n : Nat) (acc : LoopAcc) (p : Nat × WFile) :
    (stepFile n acc p).trace = acc.trace ++ [perFileState acc.cur n p.1] := by
  unfold stepFile
  cases p.2.outcome <;> rfl

theorem stepFile_failed (n : Nat) (acc : LoopAcc) (p : Nat × WFile) :
    (stepFile n acc p).failed = acc.failed + (if isFailed p.2 then 1 else 0) := by
  unfold stepFile isFailed
  cases p.2.outcome <;> rfl

theorem foldl_stepFile_results (n : Nat) :
    ∀ (ws : List (Nat × WFile)) (acc : LoopAcc),
      (ws.foldl (stepFile n) acc).results =
        acc.results ++ ws.map (fun p => fileResult p.1 p.2)
  | [], acc => by simp
  | p :: ps, acc => by
    simp only [List.foldl_cons, List.map_cons]
    rw [foldl_stepFile_results n ps (stepFile n acc p), stepFile_results]
    simp

theorem foldl_stepFile_failed (n : Nat) :
    ∀ (ws : List (Nat × WFile)) (acc : LoopAcc),
      (ws.foldl (stepFile n) acc).failed =
        acc.failed + ws.countP (fun p => isFailed p.2)
  | [], acc => by simp
  | p :: ps, acc => by
    simp only [List.foldl_cons]
    rw [foldl_stepFile_failed n ps (stepFile n acc p), stepFile_failed,
      List.countP_cons]
    omega

theorem foldl_stepFile_trace (n : Nat) :
    ∀ (ws : List (Nat × WFile)) (acc : LoopAcc),
      (ws.foldl (stepFile n) acc).trace =
        acc.trace ++ ws.map (fun p => perFileState acc.cur n p.1)
  | [], acc => by simp
  | p :: ps, acc => by
    simp only [List.foldl_cons, List.map_cons]
    rw [foldl_stepFile_trace n ps (stepFile n acc p), stepFile_trace, stepFile_cur]
    simp only [perFileState_comp]
    simp

theorem countP_enumFrom {α : Type} (q : α → Bool) :
    ∀ (l : List α) (k : Nat),
      (List.enumFrom k l).countP (fun p => q p.2) = l.countP q
  | [], _ => rfl
  | a :: as, k => by
    simp only [List.enumFrom, List.countP_cons, countP_enumFrom q as (k + 1)]

theorem pairwise_progress_list (n : Nat) (hn : 0 < n) :
    List.Pairwise (· ≤ ·)
      (0 :: ((List.range n).map (fun i => i * 100 / n) ++ [100])) := by
  constructor
  · intro x _
    exact Nat.zero_le x
  · rw [List.pairwise_append]
    refine ⟨?_, List.pairwise_singleton _ _, ?_⟩
    · rw [List.pairwise_map]
      exact (List.pairwise_lt_range n).imp
        (fun h => Nat.div_le_div_right (Nat.mul_le_mul_right 100 (le_of_lt h)))
    · intro x hx y hy
      rcases List.mem_map.mp hx with ⟨i, hi, rfl⟩
      rw [List.mem_singleton.mp hy]
      calc i * 100 / n ≤ n * 100 / n :=
            Nat.div_le_div_right
              (Nat.mul_le_mul_right 100 (le_of_lt (List.mem_range.mp hi)))
        _ = 100 := Nat.mul_div_cancel_left 100 hn

/-! ## Helper lemmas: embedding cache -/

theorem cacheHitVal_nil (h : String) : cacheHitVal [] h = none := rfl

theorem map_cacheHitVal_nil :
    ∀ l : List (String × String),
      l.map (fun p => cacheHitVal [] p.2) = List.replicate l.length none
  | [] => rfl
  | p :: ps => by
    show (none : Option (List ℚ)) :: ps.map (fun p => cacheHitVal [] p.2) =
      (none : Option (List ℚ)) :: List.replicate ps.length none
    rw [map_cacheHitVal_nil ps]

theorem filter_isNone_nil :
    ∀ l : List (String × String),
      l.filter (fun p => (cacheHitVal [] p.2).isNone) = l
  | [] => rfl
  | p :: ps => by
    show p :: ps.filter (fun p => (cacheHitVal [] p.2).isNone) = p :: ps
    rw [filter_isNone_nil ps]

theorem fillMisses_replicate_none :
    ∀ (news : List (List ℚ)) (n : Nat), news.length = n →
      fillMisses (List.replicate n none) news = news.map some
  | [], 0, _ => rfl
  | [], n + 1, h => by simp at h
  | v :: vs, 0, h => by simp at h
  | v :: vs, n + 1, h => by
    simp only [List.replicate_succ, fillMisses, List.map_cons]
    rw [fillMisses_replicate_none vs n (by simpa using h)]

/-! ## Claims -/

/-- Claim C9: calling the tie-breaker on an empty list is an error, not a
silent default — `select_keep_file []` raises `ValueError` (modelled as
`Except.error` with the source's message) — and a one-element list returns
that element without examining any key fields (the equation holds for an
arbitrary record, whatever its fields hold). -/
theorem c9_empty_raises_singleton_returns :
    select_keep_file [] = .error "Cannot select keep file from empty list" ∧
    ∀ f : FileRec, select_keep_file [f] = .ok f :=
  ⟨rfl, fun _ => rfl⟩

/-- Claim C8: for every requested limit, `search_similar_texts` uses
`min(limit, vector_search_limit)` as the effective limit and returns at most
that many results; in particular `limit = 10000` against a cap of `500`
yields at most `min 10000 500 = 500` results. -/
theorem c8_search_cap (vector_search_limit : Nat) (dist : List ℚ → List ℚ → ℚ)
    (table : List VRow) (embedding : List ℚ) (distance_threshold : ℚ)
    (limit offset : Nat) (exclude_file_id : Option String) :
    (search_similar_texts vector_search_limit dist table embedding
      distance_threshold limit offset exclude_file_id).limit =
        min limit vector_search_limit ∧
    (search_similar_texts vector_search_limit dist table embedding
      distance_threshold limit offset exclude_file_id).results.length ≤
        min limit vector_search_limit := by
  constructor
  · rfl
  · simp only [search_similar_texts, sqlSimilarTexts]
    rw [List.length_take]
    exact min_le_left _ _

/-- Claim C1 (code bug): the spec requires that a file claimed by the
exact-hash stage be removed from the exact-text stage so that no file lies
in more than one group (P4), but the source is the naive two-pass version
with no claim step.  On two successful files sharing both `sha256` and
`text_content` the grouper returns two groups and each file is a member of
both. -/
theorem c1_partition_violated :
    (find_duplicate_groups [c1A, c1B] [] []).length = 2 ∧
    ((find_duplicate_groups [c1A, c1B] [] []).filter
      (fun g => memberB c1A g)).length = 2 ∧
    ((find_duplicate_groups [c1A, c1B] [] []).filter
      (fun g => memberB c1B g)).length = 2 ∧
    (find_duplicate_groups [c1A, c1B] [] []).map DuplicateGroup.reason =
      ["Exact hash match", "Exact text content match"] := by
  decide

/-- Claim C2 (counterexample): two successful unclaimed files whose
embeddings are identical (cosine similarity 1 ≥ 0.85, above every spec
threshold tier) produce NO group at all: the grouper has no
embedding-similarity stage. -/
theorem c2_counterexample :
    (0.85 : ℝ) ≤ cosineSimilarity [1, 0] [1, 0] ∧
    c2C.success = true ∧ c2D.success = true ∧ effHash c2C ≠ effHash c2D ∧
    find_duplicate_groups [c2C, c2D] [[1, 0], [1, 0]] [] = [] := by
  refine ⟨?_, rfl, rfl, by decide, by decide⟩
  have hdot : dotList [1, 0] [1, 0] = 1 := by norm_num [dotList]
  unfold cosineSimilarity
  rw [hdot]
  push_cast
  rw [Real.sqrt_one]
  norm_num

/-- Claim C2 (amended): the grouper has no third, embedding-similarity
stage.  Its output never depends on the embedding arguments, and every
returned group is an exact-hash or an exact-text group; no group with
reason "similar content" is ever produced. -/
theorem c2_embeddings_ignored (files : List FileRec)
    (tE iE tE' iE' : List (List ℚ)) :
    find_duplicate_groups files tE iE = find_duplicate_groups files tE' iE' ∧
    (find_duplicate_groups files tE iE).all
      (fun g => decide (g.reason = "Exact hash match") ||
        decide (g.reason = "Exact text content match")) = true := by
  refine ⟨rfl, ?_⟩
  rw [List.all_eq_true]
  intro g hg
  simp only [find_duplicate_groups, List.mem_append] at hg
  rcases hg with hg | hg
  · rcases List.mem_map.mp hg with ⟨p, _, rfl⟩
    simp [mkGroup_reason]
  · split at hg
    · rcases List.mem_map.mp hg with ⟨p, _, rfl⟩
      simp [mkGroup_reason]
    · cases hg

/-- Claim C5 (counterexample): the name tie-break is not always decisive —
two distinct records (different ids and hashes) can share the whole sort
key, and then `select_keep_file` returns a different record for a
permutation of the same list. -/
theorem c5_counterexample :
    [c5A, c5B].Perm [c5B, c5A] ∧
    select_keep_file [c5A, c5B] = .ok c5A ∧
    select_keep_file [c5B, c5A] = .ok c5B ∧
    c5A ≠ c5B := by
  refine ⟨List.Perm.swap c5B c5A [], by decide, by decide, by decide⟩

/-- Claim C5 (amended): the tie-breaker is order-independent on every list
whose effective file names (`fileName or name`) are pairwise distinct —
then the name comparison is a decisive final tie-break and any permutation
yields the same record (the empty list yields the same error). -/
theorem c5_tiebreak_order_independent (l1 l2 : List FileRec) (hp : l1.Perm l2)
    (hnd : (l1.map filename_val).Nodup) :
    select_keep_file l1 = select_keep_file l2 := by
  cases l1 with
  | nil =>
    have h2 : l2 = [] := List.length_eq_zero.mp hp.length_eq.symm
    rw [h2]
  | cons f fs =>
    cases l2 with
    | nil => exact absurd hp.length_eq (by simp)
    | cons g gs =>
      rw [select_keep_file_cons, select_keep_file_cons]
      have hm1 : minByKey f fs ∈ f :: fs := minByKey_mem fs f
      have hm2 : minByKey g gs ∈ f :: fs := hp.mem_iff.mpr (minByKey_mem gs g)
      have hk : sortKey (minByKey f fs) = sortKey (minByKey g gs) :=
        le_antisymm (minByKey_le fs f _ hm2)
          (minByKey_le gs g _ (hp.mem_iff.mp hm1))
      rw [List.inj_on_of_nodup_map hnd hm1 hm2 (sortKey_eq_imp_filename hk)]

/-- Witness for C5 (amended) at a two-element list with distinct names and
its swap. -/
theorem c5_tiebreak_order_independent_witness :
    select_keep_file [c1A, c1B] = select_keep_file [c1B, c1A] :=
  c5_tiebreak_order_independent [c1A, c1B] [c1B, c1A]
    (List.Perm.swap c1B c1A []) (by decide)

/-- Claim C4 (counterexample): two distinct successful files with the same
non-empty hash but the same `fileName` do NOT both end up members of the
group — the non-kept one is dropped by the `fileName !=` filter, so it is a
member of no group at all. -/
theorem c4_counterexample :
    effHash c4A = effHash c4B ∧ effHash c4A ≠ "" ∧ c4A ≠ c4B ∧
    c4A.success = true ∧ c4B.success = true ∧
    (find_duplicate_groups [c4A, c4B] [] []).length = 1 ∧
    (find_duplicate_groups [c4A, c4B] [] []).all
      (fun g => !(memberB c4B g)) = true := by
  decide

/-- Claim C4 (amended): on inputs whose records carry pairwise-distinct ids
and pairwise-distinct `fileName`s, any two distinct successful files with
the same non-empty hash are members of one common exact-hash group (one of
them possibly as the keep file), and every duplicate entry of the group
carries similarity 1.0. -/
theorem c4_exact_hash_grouping (files : List FileRec) (tE iE : List (List ℚ))
    (f1 f2 : FileRec)
    (h1 : f1 ∈ files) (h2 : f2 ∈ files)
    (hs1 : f1.success = true) (hs2 : f2.success = true)
    (hne : f1 ≠ f2) (hh : effHash f1 = effHash f2) (hnz : effHash f1 ≠ "")
    (hid : (files.map FileRec.id).Nodup)
    (hnames : (files.map FileRec.fileName).Nodup) :
    ∃ g ∈ find_duplicate_groups files tE iE,
      memberB f1 g = true ∧ memberB f2 g = true ∧
      ∀ d ∈ g.duplicates, d.similarity = 1 := by
  have hp1 : f1 ∈ files.filter (fun f => f.success) :=
    List.mem_filter.mpr ⟨h1, hs1⟩
  have hp2 : f2 ∈ files.filter (fun f => f.success) :=
    List.mem_filter.mpr ⟨h2, hs2⟩
  have hkey : effHash f1 ∈ hashKeys (files.filter (fun f => f.success)) :=
    effHash_mem_hashKeys hp1 hnz
  have hg1 : f1 ∈ (files.filter (fun f => f.success)).filter
      (fun f => decide (effHash f = effHash f1)) :=
    List.mem_filter.mpr ⟨hp1, by simp⟩
  have hg2 : f2 ∈ (files.filter (fun f => f.success)).filter
      (fun f => decide (effHash f = effHash f1)) :=
    List.mem_filter.mpr ⟨hp2, by simp [hh]⟩
  have hlen : 1 < ((files.filter (fun f => f.success)).filter
      (fun f => decide (effHash f = effHash f1))).length :=
    two_mem_one_lt_length hg1 hg2 hne
  have hmem : (files.filter (fun f => f.success)).filter
      (fun f => decide (effHash f = effHash f1)) ∈
      (hashKeys (files.filter (fun f => f.success))).map
        (fun h => (files.filter (fun f => f.success)).filter
          (fun f => decide (effHash f = h))) :=
    List.mem_map.mpr ⟨effHash f1, hkey, rfl⟩
  rcases hash_group_mem_output files tE iE hmem hlen with ⟨i, hgi⟩
  have hsub : ((files.filter (fun f => f.success)).filter
      (fun f => decide (effHash f = effHash f1))) ⊆ files := fun x hx =>
    (List.filter_sublist _).subset ((List.filter_sublist _).subset hx)
  have hkept : selectKeepTotal ((files.filter (fun f => f.success)).filter
      (fun f => decide (effHash f = effHash f1))) ∈
      (files.filter (fun f => f.success)).filter
        (fun f => decide (effHash f = effHash f1)) :=
    selectKeepTotal_mem (by
      intro hempty
      rw [hempty] at hg1
      cases hg1)
  have memf : ∀ f, f ∈ (files.filter (fun f => f.success)).filter
      (fun f => decide (effHash f = effHash f1)) →
      memberB f (mkGroup i "Exact hash match"
        ((files.filter (fun f => f.success)).filter
          (fun f => decide (effHash f = effHash f1)))) = true := by
    intro f hf
    by_cases heq : f = selectKeepTotal ((files.filter (fun f => f.success)).filter
      (fun f => decide (effHash f = effHash f1)))
    · exact memberB_mkGroup i _ hf (Or.inl heq)
    · refine memberB_mkGroup i _ hf (Or.inr ⟨?_, ?_⟩)
      · intro hidq
        exact heq (List.inj_on_of_nodup_map hid (hsub hf) (hsub hkept) hidq)
      · intro hnm
        exact heq (List.inj_on_of_nodup_map hnames (hsub hf) (hsub hkept) hnm)
  exact ⟨_, hgi, memf f1 hg1, memf f2 hg2, mkGroup_similarity _ _ _⟩

/-- Witness for C4 (amended) at two concrete files with the same hash and
distinct names. -/
theorem c4_exact_hash_grouping_witness :
    ∃ g ∈ find_duplicate_groups [c1A, c1B] [] [],
      memberB c1A g = true ∧ memberB c1B g = true ∧
      ∀ d ∈ g.duplicates, d.similarity = 1 :=
  c4_exact_hash_grouping [c1A, c1B] [] [] c1A c1B (by decide) (by decide)
    rfl rfl (by decide) (by decide) (by decide) (by decide) (by decide)

/-- Claim C3 (counterexample): with the empty starting cache and hashes
`[h1,h1,h2,h3,h3]` (3 distinct values) over 5 texts, the generator is
invoked once — but with all 5 texts, not with the 3 unique ones: the lookup
loop classifies every position against the starting cache, so duplicate
hashes inside one batch are not deduplicated. -/
theorem c3_counterexample :
    c3hashes.length = 5 ∧ c3hashes.dedup.length = 3 ∧
    (get_or_generate_text_embeddings [] c3gen c3texts c3hashes).toOption.map
      (fun r => r.genCalls.map List.length) = some [5] := by
  decide

/-- Claim C3 (amended): with an empty starting cache, one call with any
equal-length, nonempty `texts`/`hashes` invokes the generator exactly once
with ALL the texts (duplicates included, in order); the returned vectors
are placed at the original positions in order, and every position is a
cache miss. -/
theorem c3_empty_cache_generates_all (texts sha256_hashes : List String)
    (gen : List String → List (List ℚ))
    (hlen : texts.length = sha256_hashes.length) (hne : texts ≠ [])
    (hg : (gen texts).length = texts.length) :
    (get_or_generate_text_embeddings [] gen texts sha256_hashes).toOption.map
        CacheResult.genCalls = some [texts] ∧
    (get_or_generate_text_embeddings [] gen texts sha256_hashes).toOption.map
        CacheResult.embeddings = some ((gen texts).map some) ∧
    (get_or_generate_text_embeddings [] gen texts sha256_hashes).toOption.map
        CacheResult.cacheHits = some (List.replicate texts.length false) := by
  have hcond : ¬ texts.length ≠ sha256_hashes.length := fun hc => hc hlen
  have hzlen : (texts.zip sha256_hashes).length = texts.length := by
    rw [List.length_zip, hlen, Nat.min_self]
  have htg : ((texts.zip sha256_hashes).filter
      (fun p => (cacheHitVal [] p.2).isNone)).map Prod.fst = texts := by
    rw [filter_isNone_nil, List.map_fst_zip _ _ (le_of_eq hlen)]
  have hscan : (texts.zip sha256_hashes).map (fun p => cacheHitVal [] p.2) =
      List.replicate texts.length none := by
    rw [map_cacheHitVal_nil, hzlen]
  have hemp : texts.isEmpty = false := by
    cases texts with
    | nil => exact absurd rfl hne
    | cons a as => rfl
  unfold get_or_generate_text_embeddings
  rw [if_neg hcond]
  refine ⟨?_, ?_, ?_⟩
  · simp only [Except.toOption, Option.map_some']
    rw [htg, hemp]
    simp
  · simp only [Except.toOption, Option.map_some']
    rw [htg, hscan, fillMisses_replicate_none (gen texts) texts.length hg]
  · simp only [Except.toOption, Option.map_some']
    rw [hscan, List.map_replicate]
    rfl

/-- Witness for C3 (amended) at the Scenario-B input. -/
theorem c3_empty_cache_generates_all_witness :
    (get_or_generate_text_embeddings [] c3gen c3texts c3hashes).toOption.map
        CacheResult.genCalls = some [c3texts] ∧
    (get_or_generate_text_embeddings [] c3gen c3texts c3hashes).toOption.map
        CacheResult.embeddings = some ((c3gen c3texts).map some) ∧
    (get_or_generate_text_embeddings [] c3gen c3texts c3hashes).toOption.map
        CacheResult.cacheHits = some (List.replicate c3texts.length false) :=
  c3_empty_cache_generates_all c3texts c3hashes c3gen (by decide) (by decide)
    (by decide)

/-- Claim C6: a per-file exception never aborts the run — the file is
recorded as failed (an entry with `success = false` carrying the error
text, and the failed count incremented), every file still contributes
exactly one result entry, and the session still completes (the grouper and
the completion update run). -/
theorem c6_per_file_failure_tolerated (s0 : SessState) (entries : List WFile)
    (i : Nat) (w : WFile) (e : String)
    (hw : (uploadedOf entries)[i]? = some w) (he : w.outcome = .error e) :
    (process_session s0 entries).final.status = "completed" ∧
    (process_session s0 entries).results =
      (uploadedOf entries).enum.map (fun p => fileResult p.1 p.2) ∧
    (process_session s0 entries).results[i]? = some (failedRec i w e) ∧
    (failedRec i w e).success = false ∧
    (failedRec i w e).error = some e ∧
    (process_session s0 entries).final.failed_files =
      (uploadedOf entries).countP isFailed ∧
    0 < (process_session s0 entries).final.failed_files := by
  have hi : i < (uploadedOf entries).length := by
    rcases List.getElem?_eq_some.mp hw with ⟨h, _⟩
    exact h
  have hval : (uploadedOf entries)[i] = w := by
    rcases List.getElem?_eq_some.mp hw with ⟨h, hv⟩
    exact hv
  have hn : ¬ (uploadedOf entries).length = 0 := by omega
  have hres : (process_session s0 entries).results =
      (uploadedOf entries).enum.map (fun p => fileResult p.1 p.2) := by
    simp only [process_session]
    rw [if_neg hn]
    rw [foldl_stepFile_results]
    rfl
  have hfail : (process_session s0 entries).final.failed_files =
      (uploadedOf entries).countP isFailed := by
    simp only [process_session]
    rw [if_neg hn]
    rw [foldl_stepFile_failed]
    show 0 + ((uploadedOf entries).enumFrom 0).countP (fun p => isFailed p.2) = _
    rw [Nat.zero_add, countP_enumFrom]
  refine ⟨?_, hres, ?_, rfl, rfl, hfail, ?_⟩
  · simp only [process_session]
    rw [if_neg hn]
  · rw [hres]
    have hlt : i < (uploadedOf entries).enum.length := by
      simpa [List.enum_length] using hi
    rw [List.getElem?_map, List.getElem?_eq_getElem hlt, List.getElem_enum]
    simp only [Option.map_some']
    rw [hval]
    show some (fileResult i w) = some (failedRec i w e)
    unfold fileResult
    rw [he]
  · rw [hfail]
    rw [List.countP_pos]
    refine ⟨w, ?_, ?_⟩
    · rw [← hval]
      exact List.getElem_mem hi
    · unfold isFailed
      rw [he]

/-- Witness for C6 at a two-file session whose first file raises `"boom"`. -/
theorem c6_per_file_failure_tolerated_witness :
    (process_session ({} : SessState) w1Entries).final.status = "completed" ∧
    (process_session ({} : SessState) w1Entries).results =
      (uploadedOf w1Entries).enum.map (fun p => fileResult p.1 p.2) ∧
    (process_session ({} : SessState) w1Entries).results[0]? =
      some (failedRec 0 wFail "boom") ∧
    (failedRec 0 wFail "boom").success = false ∧
    (failedRec 0 wFail "boom").error = some "boom" ∧
    (process_session ({} : SessState) w1Entries).final.failed_files =
      (uploadedOf w1Entries).countP isFailed ∧
    0 < (process_session ({} : SessState) w1Entries).final.failed_files :=
  c6_per_file_failure_tolerated {} w1Entries 0 wFail "boom" (by decide) (by decide)

theorem perFileState_progress (b : SessState) (n i : Nat) :
    (perFileState b n i).progress = i * 100 / n := rfl

theorem enum_map_scaled {α : Type} (l : List α) (n : Nat) :
    l.enum.map (fun p => p.1 * 100 / n) =
      (List.range l.length).map (fun i => i * 100 / n) := by
  rw [← List.enum_map_fst l, List.map_map]
  rfl

/-- Claim C7: in a completed run the persisted progress values are exactly
`0, ⌊0·100/n⌋, …, ⌊(n−1)·100/n⌋, 100` (the per-file write for file `i` is
`int((i / total) * 100)`, modelled as exact floor division) and this
sequence is monotonically non-decreasing. -/
theorem c7_monotonic_progress (s0 : SessState) (entries : List WFile)
    (hne : uploadedOf entries ≠ []) :
    (process_session s0 entries).trace.map SessState.progress =
      0 :: ((List.range (uploadedOf entries).length).map
        (fun i => i * 100 / (uploadedOf entries).length) ++ [100]) ∧
    List.Pairwise (· ≤ ·)
      ((process_session s0 entries).trace.map SessState.progress) := by
  have hn : ¬ (uploadedOf entries).length = 0 := by
    intro hzero
    exact hne (List.length_eq_zero.mp hzero)
  have h1 : (process_session s0 entries).trace.map SessState.progress =
      0 :: ((List.range (uploadedOf entries).length).map
        (fun i => i * 100 / (uploadedOf entries).length) ++ [100]) := by
    simp only [process_session]
    rw [if_neg hn]
    rw [foldl_stepFile_trace]
    simp only [List.nil_append, List.map_cons, List.map_append, List.map_map]
    rw [← enum_map_scaled (uploadedOf entries) (uploadedOf entries).length]
    rfl
  exact ⟨h1, h1 ▸ pairwise_progress_list _ (Nat.pos_of_ne_zero hn)⟩

/-- Witness for C7 at a two-file session (trace `[0, 0, 50, 100]`). -/
theorem c7_monotonic_progress_witness :
    (process_session ({} : SessState) w1Entries).trace.map SessState.progress =
      0 :: ((List.range (uploadedOf w1Entries).length).map
        (fun i => i * 100 / (uploadedOf w1Entries).length) ++ [100]) ∧
    List.Pairwise (· ≤ ·)
      ((process_session ({} : SessState) w1Entries).trace.map
        SessState.progress) :=
  c7_monotonic_progress {} w1Entries (by decide)

/-- Claim C10: a session whose storage holds zero uploaded files never
completes: `process_session` persists `status = "failed"` with
`error_message = "No files found to process"` and returns before the
per-file loop and the grouper (no result entries, the duplicate groups are
untouched, and only the two bookkeeping states were persisted, both with
progress 0). -/
theorem c10_zero_files_failed (s0 : SessState) (entries : List WFile)
    (h : uploadedOf entries = []) :
    (process_session s0 entries).final.status = "failed" ∧
    (process_session s0 entries).final.error_message =
      some "No files found to process" ∧
    (process_session s0 entries).final.status ≠ "completed" ∧
    (process_session s0 entries).results = [] ∧
    (process_session s0 entries).final.duplicate_groups =
      s0.duplicate_groups ∧
    (process_session s0 entries).trace.map SessState.progress = [0, 0] := by
  have hn : (uploadedOf entries).length = 0 := by rw [h]; rfl
  simp only [process_session]
  rw [if_pos hn]
  exact ⟨rfl, rfl, show ("failed" : String) ≠ "completed" by decide, rfl, rfl, rfl⟩

/-- Witness for C10 at a session directory holding only `results.json`. -/
theorem c10_zero_files_failed_witness :
    (process_session ({} : SessState) w0Entries).final.status = "failed" ∧
    (process_session ({} : SessState) w0Entries).final.error_message =
      some "No files found to process" ∧
    (process_session ({} : SessState) w0Entries).final.status ≠ "completed" ∧
    (process_session ({} : SessState) w0Entries).results = [] ∧
    (process_session ({} : SessState) w0Entries).final.duplicate_groups =
      ({} : SessState).duplicate_groups ∧
    (process_session ({} : SessState) w0Entries).trace.map
      SessState.progress = [0, 0] :=
  c10_zero_files_failed {} w0Entries (by decide)
